import Mathlib

/-!
Verification of the response-assembly engine of the bob-plugin-openai-polisher
plugin, a shallow embedding of src/main.ts.  Strings from the JavaScript side
are modelled as Lean character lists; JSON values delivered by the host's HTTP
transport are modelled by the inductive type Js below.  Callback invocations
and transport invocations are recorded as an ordered list of events, so that
properties about "what the call delivers" become properties of the event trace.
-/

/-- Character list of a string literal (the JS string model used throughout). -/
def chars (x : String) : List Char :=
  x.data

/-- JavaScript whitespace recognised by String.prototype.trim (ASCII subset;
the engine also trims rare Unicode spaces, which never occur on this wire). -/
def isJsWs (c : Char) : Bool :=
  c = ' ' || c = '\t' || c = '\n' || c = '\r' || c = '\x0b' || c = '\x0c'

/-- Model of JS String.prototype.trim. -/
def jsTrim (t : List Char) : List Char :=
  ((t.dropWhile isJsWs).reverse.dropWhile isJsWs).reverse

/-- Model of JS String.prototype.split("\n"): "a\nb" gives ["a","b"],
"a\n" gives ["a",""], "" gives [""]. -/
def splitNl : List Char → List (List Char)
  | [] => [[]]
  | '\n' :: rest => [] :: splitNl rest
  | c :: rest =>
    match splitNl rest with
    | [] => [[c]]
    | h :: t => (c :: h) :: t

/-- Does `l` begin with `pat`?  (Model of a JS startsWith test, used to build
the substring test below.) -/
def beginsWith : List Char → List Char → Bool
  | [], _ => true
  | _ :: _, [] => false
  | p :: ps, c :: cs => p = c && beginsWith ps cs

/-- Model of JS String.prototype.includes: does `pat` occur as a contiguous
substring of the second argument? -/
def containsSub (pat : List Char) : List Char → Bool
  | [] => beginsWith pat []
  | c :: rest => beginsWith pat (c :: rest) || containsSub pat rest

/-- JSON/JavaScript values as delivered by the host runtime.  `undefined` is the
JavaScript `undefined` produced by missing properties and out-of-range
indexing; it never appears inside parsed JSON itself.  Numbers are modelled
as rationals (the wire only carries decimal numerals). -/
inductive Js where
  | undefined : Js
  | null : Js
  | bool (b : Bool) : Js
  | num (q : ℚ) : Js
  | str (st : List Char) : Js
  | arr (xs : List Js) : Js
  | obj (fields : List (List Char × Js)) : Js

/-- First binding of a key in a JS object's field list. -/
def lookupField : List (List Char × Js) → List Char → Option Js
  | [], _ => none
  | (k, v) :: rest, key => if k = key then some v else lookupField rest key

/-- JS truthiness of a value (NaN does not occur in the model). -/
def Js.truthy : Js → Bool
  | .undefined => false
  | .null => false
  | .bool b => b
  | .num q => q ≠ 0
  | .str st => st ≠ []
  | .arr _ => true
  | .obj _ => true

/-- Property access `v.key` on a value already known not to be null/undefined:
objects look the key up, every other shape yields `undefined` (no property of
that name exists on the wrapper). -/
def getPropNN (v : Js) (key : List Char) : Js :=
  match v with
  | .obj fs =>
    match lookupField fs key with
    | some x => x
    | none => .undefined
  | _ => .undefined

/-- Property access `v.key`: throws a TypeError (modelled as `Except.error`)
when `v` is null or undefined, otherwise as `getPropNN`. -/
def getPropChk (v : Js) (key : List Char) : Except Unit Js :=
  match v with
  | .undefined => .error ()
  | .null => .error ()
  | _ => .ok (getPropNN v key)

/-- Index access `v[i]` on a value known not to be null/undefined: arrays
index their elements, strings index their characters, objects look up the
decimal key, everything else gives `undefined`. -/
def getIndexNN (v : Js) (i : Nat) : Js :=
  match v with
  | .arr xs =>
    match xs.get? i with
    | some x => x
    | none => .undefined
  | .str st =>
    match st.get? i with
    | some c => .str [c]
    | none => .undefined
  | .obj fs =>
    match lookupField fs (Nat.toDigits 10 i) with
    | some x => x
    | none => .undefined
  | _ => .undefined

/-- Index access `v[i]`: throws on null/undefined. -/
def getIndexChk (v : Js) (i : Nat) : Except Unit Js :=
  match v with
  | .undefined => .error ()
  | .null => .error ()
  | _ => .ok (getIndexNN v i)

/-- Optional-chaining property access `v?.key`: null/undefined short-circuit
to undefined instead of throwing. -/
def optChainProp (v : Js) (key : List Char) : Js :=
  match v with
  | .undefined => .undefined
  | .null => .undefined
  | _ => getPropNN v key

/-- `v.length` as read by a bare property access: arrays and strings report
their length, objects may carry a numeric "length" field, other non-null
shapes have no such property (`none` models the resulting `undefined`).
Null/undefined throw. -/
def jsLengthChk (v : Js) : Except Unit (Option ℚ) :=
  match v with
  | .undefined => .error ()
  | .null => .error ()
  | .arr xs => .ok (some (xs.length : ℚ))
  | .str st => .ok (some (st.length : ℚ))
  | .obj fs =>
    match lookupField fs (chars "length") with
    | some (.num q) => .ok (some q)
    | _ => .ok none
  | _ => .ok none

/-- Field lookup on a JSON object value (used only in theorem statements). -/
def jsField : Js → List Char → Option Js
  | .obj fs, key => lookupField fs key
  | _, _ => none

/-- Skip JSON insignificant whitespace. -/
def skipWs (cs : List Char) : List Char :=
  cs.dropWhile (fun c => c = ' ' || c = '\t' || c = '\n' || c = '\r')

/-- Decimal digit value. -/
def digitVal (c : Char) : Option Nat :=
  if '0' ≤ c ∧ c ≤ '9' then some (c.toNat - '0'.toNat) else none

/-- Parse a run of decimal digits (at least one). -/
def parseDigits : List Char → Nat → Option (Nat × List Char)
  | [], acc => some (acc, [])
  | c :: rest, acc =>
    match digitVal c with
    | some d => parseDigits rest (acc * 10 + d)
    | none => some (acc, c :: rest)

/-- Parse the body of a JSON string after the opening quote, handling the
common escape sequences appearing on this wire. -/
def parseStr : List Char → Option (List Char × List Char)
  | [] => none
  | '"' :: rest => some ([], rest)
  | '\\' :: e :: rest =>
    match
      (match e with
       | '"' => some '"'
       | '\\' => some '\\'
       | '/' => some '/'
       | 'n' => some '\n'
       | 't' => some '\t'
       | 'r' => some '\r'
       | 'b' => some '\x08'
       | 'f' => some '\x0c'
       | _ => none) with
    | some c =>
      match parseStr rest with
      | some (s, rem) => some (c :: s, rem)
      | none => none
    | none => none
  | '\\' :: [] => none
  | c :: rest =>
    if c = '"' ∨ c = '\\' then none
    else
      match parseStr rest with
      | some (s, rem) => some (c :: s, rem)
      | none => none

mutual

/-- Recursive-descent model of JSON.parse restricted to the value grammar
used on this wire (objects, arrays, strings, integer numerals, true, false,
null).  The fuel argument bounds nesting depth and is chosen large enough at
the top entry point that it never runs out on an input of that length. -/
def parseVal : Nat → List Char → Option (Js × List Char)
  | 0, _ => none
  | fuel + 1, cs0 =>
    match skipWs cs0 with
    | [] => none
    | c :: rest =>
      if c = '\x7b' then
        match skipWs rest with
        | '\x7d' :: rem => some (.obj [], rem)
        | cs1 => (parseMembers fuel cs1).map (fun p => (Js.obj p.1, p.2))
      else if c = '[' then
        match skipWs rest with
        | ']' :: rem => some (.arr [], rem)
        | cs1 => (parseElems fuel cs1).map (fun p => (Js.arr p.1, p.2))
      else if c = '"' then
        (parseStr rest).map (fun p => (Js.str p.1, p.2))
      else if c = 't' then
        match rest with
        | 'r' :: 'u' :: 'e' :: rem => some (.bool true, rem)
        | _ => none
      else if c = 'f' then
        match rest with
        | 'a' :: 'l' :: 's' :: 'e' :: rem => some (.bool false, rem)
        | _ => none
      else if c = 'n' then
        match rest with
        | 'u' :: 'l' :: 'l' :: rem => some (.null, rem)
        | _ => none
      else if c = '-' then
        match rest with
        | d :: rest2 =>
          match digitVal d with
          | some v =>
            match parseDigits rest2 v with
            | some (n, rem) => some (.num (-(n : ℚ)), rem)
            | none => none
          | none => none
        | [] => none
      else
        match digitVal c with
        | some v =>
          match parseDigits rest v with
          | some (n, rem) => some (.num (n : ℚ), rem)
          | none => none
        | none => none

/-- Parse one-or-more comma-separated members of a JSON object. -/
def parseMembers : Nat → List Char → Option (List (List Char × Js) × List Char)
  | 0, _ => none
  | fuel + 1, cs0 =>
    match skipWs cs0 with
    | '"' :: rest =>
      match parseStr rest with
      | some (key, rem1) =>
        match skipWs rem1 with
        | ':' :: rem2 =>
          match parseVal fuel rem2 with
          | some (v, rem3) =>
            match skipWs rem3 with
            | ',' :: rem4 =>
              (parseMembers fuel rem4).map (fun p => ((key, v) :: p.1, p.2))
            | '\x7d' :: rem4 => some ([(key, v)], rem4)
            | _ => none
          | none => none
        | _ => none
      | none => none
    | _ => none

/-- Parse one-or-more comma-separated elements of a JSON array. -/
def parseElems : Nat → List Char → Option (List Js × List Char)
  | 0, _ => none
  | fuel + 1, cs0 =>
    match parseVal fuel cs0 with
    | some (v, rem1) =>
      match skipWs rem1 with
      | ',' :: rem2 => (parseElems fuel rem2).map (fun p => (v :: p.1, p.2))
      | ']' :: rem2 => some ([v], rem2)
      | _ => none
    | none => none

end



/-- Model of JSON.parse: whole-input parse, `none` models a thrown
SyntaxError. -/
def jsonParse (cs : List Char) : Option Js :=
  match parseVal (cs.length + 1) cs with
  | some (v, rem) => if skipWs rem = [] then some v else none
  | none => none

/-- Decimal rendering of a rational: integers render as JS numbers do; the
fractional fallback never occurs on this wire. -/
def ratRepr (q : ℚ) : List Char :=
  if q.den = 1 then
    (if q.num < 0 then ['-'] else []) ++ Nat.toDigits 10 q.num.natAbs
  else
    (if q.num < 0 then ['-'] else []) ++ Nat.toDigits 10 q.num.natAbs
      ++ '/' :: Nat.toDigits 10 q.den

/-- JSON string escaping for one character. -/
def escapeJsonChar (c : Char) : List Char :=
  if c = '"' then ['\\', '"']
  else if c = '\\' then ['\\', '\\']
  else if c = '\n' then ['\\', 'n']
  else if c = '\t' then ['\\', 't']
  else if c = '\r' then ['\\', 'r']
  else [c]

mutual

/-- Model of JSON.stringify on runtime values (undefined is rendered as null;
the serialized objects in this development never contain undefined). -/
def jsonStringify : Js → List Char
  | .undefined => chars "null"
  | .null => chars "null"
  | .bool b => if b then chars "true" else chars "false"
  | .num q => ratRepr q
  | .str st => '"' :: (st.map escapeJsonChar).flatten ++ ['"']
  | .arr xs => '[' :: stringifyElems xs ++ [']']
  | .obj fs => '\x7b' :: stringifyMems fs ++ ['\x7d']

/-- Comma-separated serialization of array elements. -/
def stringifyElems : List Js → List Char
  | [] => []
  | [x] => jsonStringify x
  | x :: y :: rest => jsonStringify x ++ ',' :: stringifyElems (y :: rest)

/-- Comma-separated serialization of object members. -/
def stringifyMems : List (List Char × Js) → List Char
  | [] => []
  | [(k, v)] => '"' :: (k.map escapeJsonChar).flatten ++ '"' :: ':' :: jsonStringify v
  | (k, v) :: m :: rest =>
    '"' :: (k.map escapeJsonChar).flatten ++ '"' :: ':' :: jsonStringify v
      ++ ',' :: stringifyMems (m :: rest)

end



mutual

/-- JS ToString coercion of a value (as applied by `+=` on a string). -/
def jsToStr : Js → List Char
  | .undefined => chars "undefined"
  | .null => chars "null"
  | .bool b => if b then chars "true" else chars "false"
  | .num q => ratRepr q
  | .str st => st
  | .arr xs => jsToStrElems xs
  | .obj _ => chars "[object Object]"

/-- Array ToString: elements joined by commas, null/undefined elements
rendered empty. -/
def jsToStrElems : List Js → List Char
  | [] => []
  | [x] =>
    match x with
    | .undefined => []
    | .null => []
    | _ => jsToStr x
  | x :: y :: rest =>
    (match x with
     | .undefined => []
     | .null => []
     | _ => jsToStr x) ++ ',' :: jsToStrElems (y :: rest)

end



/-- One observable action of a plugin call: a callback invocation or a
transport invocation, in program order. -/
inductive Event where
  | completionError (etype message : List Char) (addition : Option (List Char)) : Event
  | completionResult (src dst : List Char) (toParagraphs : List (List Char)) : Event
  | partialResult (src dst : List Char) (toParagraphs : List (List Char)) : Event
  | validateError (etype message : List Char) : Event
  | validateOk : Event
  | httpRequest (method url : List Char) : Event
deriving DecidableEq

/-- The translation query handed to `translate` (src/main.ts). -/
structure Query where
  text : List Char
  detectFrom : List Char
  detectTo : List Char
deriving DecidableEq

/-- The plugin option record `$option` as read by src/main.ts.  Bob supplies
option values as strings; an unset option reads as the empty string, which is
exactly the falsy case the code tests. -/
structure Options where
  apiKeys : List Char
  apiUrl : List Char
  apiVersion : List Char
  customModel : List Char
  deploymentName : List Char
  model : List Char
  stream : List Char
  customSystemPrompt : List Char
  customUserPrompt : List Char
  polishingMode : List Char
deriving DecidableEq

/-- The host HTTP response object as consumed by the handlers: parsed body
`data`, the status code of `.response`, and the promise-level `error` field
checked by the non-streaming translate path. -/
structure HttpResponse where
  data : Js
  statusCode : Int
  error : Option Js

/-- JSON.stringify(result) over the modelled fields of the response object. -/
def serializeResp (r : HttpResponse) : List Char :=
  jsonStringify (Js.obj
    [(chars "data", r.data),
     (chars "response", Js.obj [(chars "statusCode", Js.num (r.statusCode : ℚ))])])

/-- The characters of the frame prefix "data: " matched by the stream regex. -/
def dataMark : List Char := chars "data: "

/-- The line terminators that the regex metacharacter `.` refuses to match
in JavaScript (without the dotAll flag). -/
def regexDotBlocks (c : Char) : Bool :=
  c = '\n' || c = '\r' || c = '\u2028' || c = '\u2029'

/-- Lazy body search of the stream regex: given the text after the "data: "
prefix, find the shortest run of non-terminator characters ending in a brace
that is immediately followed by a newline; the returned group includes the
closing brace (regex group `(.*?\x7d)` of `/data: (.*?\x7d)\n/`). -/
def findBody : List Char → Option (List Char)
  | [] => none
  | c :: rest =>
    if regexDotBlocks c then none
    else if c = '\x7d' ∧ rest.head? = some '\n' then some [c]
    else (findBody rest).map (fun g => c :: g)

/-- Leftmost match of the stream regex `/data: (.*?\x7d)\n/` in the buffer:
scan starting positions left to right, at each one require the literal
prefix and then the lazy body.  Returns the capture group; the length of the
whole match `data: <group>\n` is the group length plus 7. -/
def findFrame : List Char → Option (List Char)
  | [] => none
  | c :: rest =>
    if (c :: rest).take 6 = dataMark then
      match findBody ((c :: rest).drop 6) with
      | some g => some g
      | none => findFrame rest
    else findFrame rest

/-- Model of the `choices[0]?.delta?.content` read in handleStreamResponse
(src/main.ts lines 210-211), including the TypeError thrown when the parsed
frame has no `choices` to index. -/
def deltaOf (dataObj : Js) : Except Unit Js := do
  let choices ← getPropChk dataObj (chars "choices")
  let c0 ← getIndexChk choices 0
  pure (optChainProp (optChainProp c0 (chars "delta")) (chars "content"))

/-- Message of the engine SyntaxError thrown by JSON.parse; the engine's
actual wording is irrelevant to every claim and is modelled as a constant. -/
def syntaxErrMsg : List Char := chars "Unexpected token in JSON"

/-- Message of the engine TypeError thrown by an undefined access; modelled
as a constant for the same reason. -/
def typeErrMsg : List Char := chars "Cannot read properties of undefined"

/-- handleStreamResponse (src/main.ts lines 201-238): ignore the [DONE]
sentinel; otherwise JSON-decode the frame, append the first choice's delta
content (when truthy) to the accumulated text and deliver it through
query.onStream; a thrown SyntaxError/TypeError is caught and reported as a
param-kind error through handleGeneralError (both carry a string message, so
isServiceError accepts them and `error.type || 'param'` yields "param").
Returns the new accumulated text together with the emitted events. -/
def handleStreamResponse (q : Query) (targetText : List Char)
    (textFromResponse : List Char) : List Char × List Event :=
  if textFromResponse = chars "[DONE]" then (targetText, [])
  else
    match jsonParse textFromResponse with
    | none =>
      (targetText, [Event.completionError (chars "param") syntaxErrMsg none])
    | some dataObj =>
      match deltaOf dataObj with
      | .error _ =>
        (targetText, [Event.completionError (chars "param") typeErrMsg none])
      | .ok delta =>
        if delta.truthy then
          let t2 := targetText ++ jsToStr delta
          (t2, [Event.partialResult q.detectFrom q.detectTo [t2]])
        else (targetText, [])

/-- Fuel-driven worker for the buffering while-loop of the streamHandler:
repeatedly take the leftmost regex match, feed the trimmed capture group to
handleStreamResponse, then drop the length of the whole match from the FRONT
of the buffer (`buffer.slice(match[0].length)` — faithfully modelled, even
though a match found at a later position makes this drop unrelated bytes).
Each iteration drops at least eight characters, so fuel equal to the buffer
length never runs out; fuel-irrelevance is proved below. -/
def drainGo : Nat → Query → List Char → List Char → List Char × List Char × List Event
  | 0, _, buffer, targetText => (buffer, targetText, [])
  | fuel + 1, q, buffer, targetText =>
    match findFrame buffer with
    | some g =>
      let pr := handleStreamResponse q targetText (jsTrim g)
      let rest := drainGo fuel q (buffer.drop (g.length + 7)) pr.1
      (rest.1, rest.2.1, pr.2 ++ rest.2.2)
    | none => (buffer, targetText, [])

/-- The buffering while-loop of the streamHandler (src/main.ts lines 357-368).
Returns the final buffer, the final accumulated text, and the events. -/
def drain (q : Query) (buffer targetText : List Char) :
    List Char × List Char × List Event :=
  drainGo buffer.length q buffer targetText

/-- Closure state captured by the streaming translate call: the chunk buffer
and the accumulated translation text (src/main.ts lines 332-333). -/
structure StreamState where
  buffer : List Char
  targetText : List Char
deriving DecidableEq

/-- The substring whose presence in a raw chunk short-circuits into the
secretKey error path (src/main.ts line 346). -/
def invalidTokenMark : List Char := chars "Invalid token"

/-- The secretKey error reported when a chunk contains "Invalid token". -/
def invalidTokenEvent : Event :=
  Event.completionError (chars "secretKey")
    (chars "配置错误 - 请确保您在插件配置中填入了正确的 API Keys")
    (some (chars "请在插件配置中填写正确的 API Keys"))

/-- One invocation of the streamHandler callback (src/main.ts lines 345-369)
on a delivered chunk: an "Invalid token" chunk is diverted to the secretKey
error path without entering the buffer; otherwise the chunk is appended to
the buffer and the buffer is drained. -/
def feedChunk (q : Query) (st : StreamState) (chunk : List Char) :
    StreamState × List Event :=
  if containsSub invalidTokenMark chunk then (st, [invalidTokenEvent])
  else
    let d := drain q (st.buffer ++ chunk) st.targetText
    (⟨d.1, d.2.1⟩, d.2.2)

/-- Feeding a sequence of chunks one at a time, accumulating events. -/
def feedAll (q : Query) (st : StreamState) :
    List (List Char) → StreamState × List Event
  | [] => (st, [])
  | c :: cs =>
    let r := feedChunk q st c
    let rest := feedAll q r.1 cs
    (rest.1, r.2 ++ rest.2)

/-- The initial closure state of a streaming call (empty buffer, empty
accumulated text). -/
def initStream : StreamState := ⟨[], []⟩

/-- The wire frame of one payload: `data: <payload>\n`. -/
def frameOf (p : List Char) : List Char :=
  dataMark ++ p ++ ['\n']

/-- A well-formed stream payload: the single-line serialization of a JSON
object — nonempty, free of line terminators, ending in a closing brace. -/
def WfPayload (p : List Char) : Prop :=
  (∀ c ∈ p, regexDotBlocks c = false) ∧ ∃ p', p = p' ++ ['\x7d']

/-- A well-formed stream byte sequence: the frames of the payloads in order,
terminated by the `data: [DONE]` sentinel line. -/
def wireOf (ps : List (List Char)) : List Char :=
  (ps.map frameOf).flatten ++ frameOf (chars "[DONE]")

/-- Reference processing of the payload sequence itself: each payload is
trimmed and handed to handleStreamResponse in order (the canonical delta
sequence a split-oblivious assembler would produce). -/
def canonicalRun (q : Query) (t : List Char) :
    List (List Char) → List Char × List Event
  | [] => (t, [])
  | p :: rest =>
    let r := handleStreamResponse q t (jsTrim p)
    let rst := canonicalRun q r.1 rest
    (rst.1, r.2 ++ rst.2)

/-- `v.length` on a value known not to be null/undefined (`?.length`). -/
def jsLengthNN : Js → Option ℚ
  | .arr xs => some (xs.length : ℚ)
  | .str st => some (st.length : ℚ)
  | .obj fs =>
    match lookupField fs (chars "length") with
    | some (.num q) => some q
    | _ => none
  | _ => none

/-- The opening quotation marks stripped by the cleanup regex
`^(『|「|"|“)` of handleGeneralResponse (src/main.ts line 255). -/
def openQuoteSet : List Char := ['『', '「', '"', '“']

/-- The closing quotation marks stripped by the cleanup regex
`(』|」|"|”)$` (src/main.ts line 255). -/
def closeQuoteSet : List Char := ['』', '」', '"', '”']

/-- One global pass of `replace(/^(『|「|"|“)|(』|」|"|”)$/g, "")`: drop one
opening quote at the very start and one closing quote at the very end. -/
def stripEdgeQuotes (t : List Char) : List Char :=
  let t1 :=
    match t with
    | [] => []
    | c :: rest => if c ∈ openQuoteSet then rest else c :: rest
  match t1.getLast? with
  | some c => if c ∈ closeQuoteSet then t1.dropLast else t1
  | none => t1

/-- The trailing artifact `" =>` tested by endsWith (src/main.ts line 258). -/
def arrowMark : List Char := ['"', ' ', '=', '>']

/-- Model of `targetText.endsWith('" =>')`. -/
def endsArrow (t : List Char) : Bool :=
  decide (t.drop (t.length - 4) = arrowMark)

/-- Modelled from the spec: handleGeneralError (src/utils.ts, absent from the
source tree).  Spec section 4.5/7: the Error Classifier constructs an
ErrorRecord of the given kind and the record is delivered through the call's
completion callback. -/
def generalErrorEvent (etype message : List Char) (addition : Option (List Char)) :
    List Event :=
  [Event.completionError etype message addition]

/-- Modelled from the spec: handleGeneralError applied to an HTTP response
(src/utils.ts, absent from the source tree).  Spec section 4.5: status in
[400,500) classifies as `param`, otherwise `api`; the serialized response is
attached as remediation detail (as in the legacy src/main.js handleError). -/
def generalErrorRespEvents (r : HttpResponse) : List Event :=
  [Event.completionError
    (if 400 ≤ r.statusCode ∧ r.statusCode < 500 then chars "param" else chars "api")
    (chars "接口响应错误")
    (some (serializeResp r))]

/-- Modelled from the spec: handleGeneralError applied to a caught exception
of no recognizable shape (src/utils.ts, absent from the source tree).  Spec
section 4.5: "Exceptions bearing no recognizable shape ⇒ generic fallback
kind with a fixed unknown-error message." -/
def genericCatchEvents : List Event :=
  [Event.completionError (chars "unknown") (chars "未知错误") none]

/-- handleGeneralResponse (src/main.ts lines 240-269): the non-streaming
Response Normalizer.  No/empty choices reports an api error carrying the
serialized response; otherwise the first choice's message content is trimmed,
edge quotes are stripped, a trailing `" =>` is cut, and the text is split on
newlines into the delivered paragraphs.  `Except.error` models an exception
escaping to the caller's catch: reading `.message` of an undefined choice,
`.content` of an undefined message, `.trim()` of a non-string content, or
`targetText!.split` of an undefined cleanup result all throw. -/
def handleGeneralResponse (q : Query) (result : HttpResponse) :
    Except Unit (List Event) := do
  let choices ← getPropChk result.data (chars "choices")
  if choices.truthy = false ∨ jsLengthNN choices = some 0 then
    pure [Event.completionError (chars "api") (chars "接口未返回结果")
      (some (serializeResp result))]
  else do
    let msg ← getPropChk (getIndexNN choices 0) (chars "message")
    let content ← getPropChk msg (chars "content")
    let t0 : Option (List Char) ←
      match content with
      | .undefined => pure none
      | .null => pure none
      | .str st => pure (some (jsTrim st))
      | _ => Except.error ()
    match (t0.map stripEdgeQuotes).map
        (fun t => if endsArrow t then t.take (t.length - 4) else t) with
    | none => Except.error ()
    | some t => pure [Event.completionResult q.detectFrom q.detectTo (splitNl t)]

/-- The final `handler` of the streaming request (src/main.ts lines 371-383):
status at least 400 goes through handleGeneralError, otherwise the
accumulated text is delivered as a single paragraph. -/
def streamFinish (q : Query) (targetText : List Char) (result : HttpResponse) :
    List Event :=
  if 400 ≤ result.statusCode then generalErrorRespEvents result
  else [Event.completionResult q.detectFrom q.detectTo [targetText]]

/-- Error kind chosen by the validate handlers from the status code
(src/main.ts lines 79 and 105). -/
def validateKind (sc : Int) : List Char :=
  if 400 ≤ sc ∧ sc < 500 then chars "param" else chars "api"

/-- The Azure validate response handler (src/main.ts lines 73-92): a truthy
`data.error` reports param/api by status; otherwise the callback is invoked
with success only when `choices.length > 0` — any other outcome invokes no
callback at all.  Reading `.length` of absent choices throws. -/
def azureValidateHandler (resp : HttpResponse) : Except Unit (List Event) := do
  let dataError ← getPropChk resp.data (chars "error")
  if dataError.truthy then
    pure [Event.validateError (validateKind resp.statusCode) (jsonStringify dataError)]
  else do
    let choices ← getPropChk resp.data (chars "choices")
    let lenOpt ← jsLengthChk choices
    pure
      (match lenOpt with
       | some n => if 0 < n then [Event.validateOk] else []
       | none => [])

/-- The OpenAI validate response handler (src/main.ts lines 99-119): a truthy
`data.error` reports param/api by status; otherwise success only when
`modelList.data?.length > 0` — an empty or absent model list invokes no
callback. -/
def openaiValidateHandler (resp : HttpResponse) : Except Unit (List Event) := do
  let dataError ← getPropChk resp.data (chars "error")
  if dataError.truthy then
    pure [Event.validateError (validateKind resp.statusCode) (jsonStringify dataError)]
  else do
    let d ← getPropChk resp.data (chars "data")
    let lenOpt : Option ℚ :=
      match d with
      | .undefined => none
      | .null => none
      | _ => jsLengthNN d
    pure
      (match lenOpt with
       | some n => if 0 < n then [Event.validateOk] else []
       | none => [])

/-- Is this character an ASCII letter (the case-insensitive `[a-z]` of the
protocol regex)? -/
def isAsciiLetter (c : Char) : Bool :=
  ('a' ≤ c && c ≤ 'z') || ('A' ≤ c && c ≤ 'Z')

/-- After the first letter of a candidate scheme: keep consuming letters
until the literal `://` is found. -/
def protoAfterLetters : List Char → Bool
  | ':' :: '/' :: '/' :: _ => true
  | c :: rest => isAsciiLetter c && protoAfterLetters rest
  | [] => false

/-- Model of the test `/^[a-z]+:\/\//i.test(url)`. -/
def hasProtocol : List Char → Bool
  | c :: rest => isAsciiLetter c && protoAfterLetters rest
  | [] => false

/-- ensureHttpsAndNoTrailingSlash (src/utils.ts, identical to the function of
that name in the legacy src/main.js): prepend https:// when no scheme is
present, then strip exactly one trailing slash. -/
def ensureHttpsAndNoTrailingSlash (url : List Char) : List Char :=
  let m := if hasProtocol url then url else chars "https://" ++ url
  match m.getLast? with
  | some '/' => m.dropLast
  | _ => m

/-- A named record for one entry of the language prompt table. -/
structure PromptInfo where
  prompt : List Char
  detailed : List Char

/-- Modelled from the spec: DEFAULT_PROMPT (src/const.ts, absent from the
source tree).  Spec section 4.2 describes the generic fallback prompt; the
wording is taken from the identical fallback in the legacy src/main.js. -/
def defaultPromptInfo : PromptInfo :=
  ⟨chars "Revise the following sentences to make them more clear, concise, and coherent.",
   chars ". Please note that you need to list the changes and briefly explain why"⟩

/-- Modelled from the spec: languageMapping (src/const.ts, absent from the
source tree).  Spec section 4.2: a language-specific default prompt keyed by
the detected source language, with a detailed-mode suffix; entries taken from
the equivalent switch in the legacy src/main.js. -/
def languageMapping (lang : List Char) : Option PromptInfo :=
  if lang = chars "zh-Hant" then
    some ⟨chars "潤色此句", chars "。請列出修改項目，並簡述修改原因"⟩
  else if lang = chars "zh-Hans" then
    some ⟨chars "润色此句", chars "。请注意要列出更改以及简要解释一下为什么这么修改"⟩
  else if lang = chars "ja" then
    some ⟨chars "この文章を装飾する",
      chars "。変更点をリストアップし、なぜそのように変更したかを簡単に説明することに注意してください"⟩
  else if lang = chars "ru" then
    some ⟨chars "Переформулируйте следующие предложения, чтобы они стали более ясными, краткими и связными",
      chars ". Пожалуйста, обратите внимание на необходимость перечисления изменений и краткого объяснения причин таких изменений"⟩
  else if lang = chars "wyw" then
    some ⟨chars "润色此句古文", chars "。请注意要列出更改以及简要解释一下为什么这么修改"⟩
  else if lang = chars "yue" then
    some ⟨chars "潤色呢句粵語", chars "。記住要列出修改嘅內容同簡單解釋下點解要做呢啲更改"⟩
  else none

/-- Fuel-driven literal find-and-replace worker. -/
def replaceAllGo : Nat → List Char → List Char → List Char → List Char
  | 0, _, _, s => s
  | fuel + 1, pat, repl, s =>
    match s with
    | [] => []
    | c :: rest =>
      if beginsWith pat s ∧ pat ≠ [] then
        repl ++ replaceAllGo fuel pat repl (s.drop pat.length)
      else c :: replaceAllGo fuel pat repl rest

/-- Literal find-and-replace of every occurrence of `pat`. -/
def replaceAllSub (pat repl s : List Char) : List Char :=
  replaceAllGo s.length pat repl s

/-- Modelled from the spec: replacePromptKeywords (src/utils.ts, absent from
the source tree).  Spec section 4.2: custom prompt templates "interpolate
query placeholders (source text, source/target language)"; modelled as the
literal replacement of the placeholders $text, $sourceLang and $targetLang. -/
def replacePromptKeywords (t : List Char) (q : Query) : List Char :=
  replaceAllSub (chars "$text") q.text
    (replaceAllSub (chars "$sourceLang") q.detectFrom
      (replaceAllSub (chars "$targetLang") q.detectTo t))

/-- generateSystemPrompt (src/main.ts lines 140-158): a falsy base prompt
falls back to the language-mapped (or default) prompt; detailed polishing
mode appends the matching detailed suffix. -/
def generateSystemPrompt (basePrompt : List Char) (polishingMode : List Char)
    (q : Query) : List Char :=
  let info :=
    match languageMapping q.detectFrom with
    | some i => i
    | none => defaultPromptInfo
  let systemPrompt := if basePrompt = [] then info.prompt else basePrompt
  if polishingMode = chars "detailed" then systemPrompt ++ info.detailed
  else systemPrompt

/-- buildRequestBody (src/main.ts lines 160-199): the object-spread of the
fixed sampling parameters with the two chat messages, in JS key order.  The
`model` key of the spread is overwritten in place by the same value. -/
def buildRequestBody (o : Options) (model : List Char) (q : Query) : Js :=
  let systemPrompt :=
    generateSystemPrompt (replacePromptKeywords o.customSystemPrompt q)
      o.polishingMode q
  let userPrompt :=
    if o.customUserPrompt = [] then q.text
    else replacePromptKeywords o.customUserPrompt q ++ chars ":\n\n\"" ++ q.text ++ ['"']
  Js.obj
    [(chars "model", .str model),
     (chars "temperature", .num (2 / 10)),
     (chars "max_tokens", .num 1000),
     (chars "top_p", .num 1),
     (chars "frequency_penalty", .num 1),
     (chars "presence_penalty", .num 1),
     (chars "messages", .arr
       [Js.obj [(chars "role", .str (chars "system")),
                (chars "content", .str systemPrompt)],
        Js.obj [(chars "role", .str (chars "user")),
                (chars "content", .str userPrompt)]])]

/-- The entry section of translate (src/main.ts lines 271-330): the four
validations each report their error through handleGeneralError but none of
them returns, so the events accumulate and the request URL is still derived.
The language table lives in src/lang.ts (absent from the source tree) and is
abstracted as the `supported` predicate.  Returns the validation events and
the final request URL. -/
def translateEntry (supported : List Char → Bool) (o : Options) (q : Query) :
    List Event × List Char :=
  let e1 :=
    if supported q.detectTo then []
    else generalErrorEvent (chars "unsupportedLanguage") (chars "不支持该语种")
      (some (chars "不支持该语种"))
  let e2 :=
    if o.model = chars "custom" ∧ o.customModel = [] then
      generalErrorEvent (chars "param")
        (chars "配置错误 - 请确保您在插件配置中填入了正确的自定义模型名称")
        (some (chars "请在插件配置中填写自定义模型名称"))
    else []
  let e3 :=
    if o.apiKeys = [] then
      generalErrorEvent (chars "secretKey")
        (chars "配置错误 - 请确保您在插件配置中填入了正确的 API Keys")
        (some (chars "请在插件配置中填写 API Keys"))
    else []
  let baseUrl :=
    ensureHttpsAndNoTrailingSlash
      (if o.apiUrl = [] then chars "https://api.openai.com" else o.apiUrl)
  let apiUrlPath0 :=
    if containsSub (chars "gateway.ai.cloudflare.com") baseUrl then
      chars "/chat/completions"
    else chars "/v1/chat/completions"
  let apiVersionQuery :=
    if o.apiVersion = [] then chars "?api-version=2023-03-15-preview"
    else chars "?api-version=" ++ o.apiVersion
  let isAzure := containsSub (chars "openai.azure.com") baseUrl
  let pe :=
    if isAzure then
      if o.deploymentName = [] then
        (apiUrlPath0,
         generalErrorEvent (chars "secretKey") (chars "配置错误 - 未填写 Deployment Name")
           (some (chars "请在插件配置中填写 Deployment Name")))
      else
        (chars "/openai/deployments/" ++ o.deploymentName
           ++ chars "/chat/completions" ++ apiVersionQuery, [])
    else (apiUrlPath0, [])
  (e1 ++ e2 ++ e3 ++ pe.2, baseUrl ++ pe.1)

/-- The non-streaming branch of translate (src/main.ts lines 385-401) given
the transport's response: the entry events, then the POST transport
invocation, then either handleGeneralError (truthy `result.error`), the
normalizer's events, or — when the normalizer throws — the surrounding
catch's generic handleGeneralError. -/
def translateNoStream (supported : List Char → Bool) (o : Options) (q : Query)
    (resp : HttpResponse) : List Event :=
  let entry := translateEntry supported o q
  entry.1 ++ [Event.httpRequest (chars "POST") entry.2] ++
    (match resp.error with
     | some e =>
       if e.truthy then generalErrorRespEvents resp
       else
         match handleGeneralResponse q resp with
         | .ok evs => evs
         | .error _ => genericCatchEvents
     | none =>
       match handleGeneralResponse q resp with
       | .ok evs => evs
       | .error _ => genericCatchEvents)

/-- The streaming branch of translate (src/main.ts lines 335-384) given the
delivered chunk sequence and the terminal response: entry events, the POST
transport invocation, the assembler's events, then the final handler. -/
def translateStream (supported : List Char → Bool) (o : Options) (q : Query)
    (chunks : List (List Char)) (result : HttpResponse) : List Event :=
  let entry := translateEntry supported o q
  let fa := feedAll q initStream chunks
  entry.1 ++ [Event.httpRequest (chars "POST") entry.2] ++ fa.2 ++
    streamFinish q fa.1.targetText result

/-- Number of completion-callback invocations in a trace (error completions
plus result completions). -/
def completionCount (evs : List Event) : Nat :=
  evs.countP (fun e =>
    match e with
    | .completionError _ _ _ => true
    | .completionResult _ _ _ => true
    | _ => false)

/-- Copy of an option record with a different deploymentName. -/
def setDeployment (o : Options) (d : List Char) : Options :=
  ⟨o.apiKeys, o.apiUrl, o.apiVersion, o.customModel, d, o.model, o.stream,
   o.customSystemPrompt, o.customUserPrompt, o.polishingMode⟩

/-- Fixture: a query from English to English. -/
def qFix : Query := ⟨chars "hello world", chars "en", chars "en"⟩

/-- Fixture: a query whose target language is not in the supported table. -/
def qBad : Query := ⟨chars "hello world", chars "en", chars "xx"⟩

/-- Fixture: a supported-language table containing only "en". -/
def supportedFix (l : List Char) : Bool := l = chars "en"

/-- Fixture: a plain, fully valid option set (OpenAI provider). -/
def optsFix : Options :=
  ⟨chars "sk-key", [], [], [], [], chars "gpt-4", chars "0", [], [],
   chars "simplicity"⟩

/-- Fixture: valid options except that apiKeys is empty. -/
def optsNoKeys : Options :=
  ⟨[], [], [], [], [], chars "gpt-4", chars "0", [], [], chars "simplicity"⟩

/-- Fixture: an Azure base URL with an empty deploymentName. -/
def optsAzure : Options :=
  ⟨chars "sk-key", chars "test.openai.azure.com", [], [], [], chars "gpt-4",
   chars "0", [], [], chars "simplicity"⟩

/-- Fixture: a successful non-streaming chat response with content "done". -/
def respOk : HttpResponse :=
  ⟨Js.obj [(chars "choices", Js.arr
      [Js.obj [(chars "message", Js.obj [(chars "content", Js.str (chars "done"))])]])],
   200, none⟩

/-- Fixture: the streaming payload carrying the delta "Hi". -/
def payloadHi : List Char :=
  chars "\x7b\"choices\":[\x7b\"delta\":\x7b\"content\":\"Hi\"\x7d\x7d]\x7d"

/-- Fixture: the streaming payload carrying the delta " there". -/
def payloadThere : List Char :=
  chars "\x7b\"choices\":[\x7b\"delta\":\x7b\"content\":\" there\"\x7d\x7d]\x7d"

/-- Fixture: a streaming payload whose delta text is "Invalid token". -/
def payloadInv : List Char :=
  chars "\x7b\"choices\":[\x7b\"delta\":\x7b\"content\":\"Invalid token\"\x7d\x7d]\x7d"

/-- Fixture: the parsed value of payloadHi. -/
def jHi : Js :=
  Js.obj [(chars "choices", Js.arr
    [Js.obj [(chars "delta", Js.obj [(chars "content", Js.str (chars "Hi"))])]])]

/-- Fixture: the [DONE] sentinel frame. -/
def frameDone : List Char := frameOf (chars "[DONE]")

/-- Fixture: a split of the payloadInv wire that separates "Invalid" from
" token" so that neither chunk contains the full marker substring. -/
def chunkInvA : List Char :=
  chars "data: \x7b\"choices\":[\x7b\"delta\":\x7b\"content\":\"Invalid"

/-- Fixture: the second half of the split wire for payloadInv. -/
def chunkInvB : List Char :=
  chars " token\"\x7d\x7d]\x7d\ndata: [DONE]\n"

theorem findBody_group_length {z : List Char} {g : List Char}
    (h : findBody z = some g) : g.length + 1 ≤ z.length := by
  induction z generalizing g with
  | nil => simp [findBody] at h
  | cons c rest ih =>
    rw [findBody] at h
    split at h
    · exact absurd h (by simp)
    · split at h
      next hcond =>
        simp at h
        subst h
        have : rest ≠ [] := by
          intro hr
          rw [hr] at hcond
          simp at hcond
        cases rest with
        | nil => exact absurd rfl this
        | cons _ _ => simp
      next =>
        simp only [Option.map_eq_some'] at h
        obtain ⟨g', hg', rfl⟩ := h
        have := ih hg'
        simp
        omega

theorem findFrame_length {b g : List Char} (h : findFrame b = some g) :
    g.length + 7 ≤ b.length := by
  induction b generalizing g with
  | nil => simp [findFrame] at h
  | cons c rest ih =>
    rw [findFrame] at h
    split at h
    next hpre =>
      have hlen6 : 6 ≤ (c :: rest).length := by
        have : ((c :: rest).take 6).length = dataMark.length := by rw [hpre]
        simp [dataMark, chars] at this
        simp
        omega
      split at h
      next g' hbody =>
        cases h
        have h2 := findBody_group_length hbody
        simp at h2 hlen6 ⊢
        omega
      next => have := ih h; simp at this ⊢; omega
    next => have := ih h; simp at this ⊢; omega

theorem drainGo_congr : ∀ (f₁ f₂ : Nat) (q : Query) (b t : List Char),
    b.length ≤ f₁ → b.length ≤ f₂ → drainGo f₁ q b t = drainGo f₂ q b t := by
  intro f₁
  induction f₁ with
  | zero =>
    intro f₂ q b t h₁ h₂
    have hb : b = [] := by
      cases b with
      | nil => rfl
      | cons x xs => simp at h₁
    subst hb
    cases f₂ with
    | zero => rfl
    | succ m => rfl
  | succ f ih =>
    intro f₂ q b t h₁ h₂
    cases f₂ with
    | zero =>
      have hb : b = [] := by
        cases b with
        | nil => rfl
        | cons x xs => simp at h₂
      subst hb
      rfl
    | succ m =>
      rw [drainGo, drainGo]
      cases hf : findFrame b with
      | none => rfl
      | some g =>
        have hlen := findFrame_length hf
        have hdl : (b.drop (g.length + 7)).length ≤ f := by simp; omega
        have hdm : (b.drop (g.length + 7)).length ≤ m := by simp; omega
        simp only [ih m q _ _ hdl hdm]

theorem findBody_append {z g Y : List Char} (h : findBody z = some g) :
    findBody (z ++ Y) = some g := by
  induction z generalizing g with
  | nil => simp [findBody] at h
  | cons c rest ih =>
    rw [findBody] at h
    rw [List.cons_append, findBody]
    split at h
    next hnl => exact absurd h (by simp)
    next hnl =>
      split at h
      next hcond =>
        simp at h
        subst h
        obtain ⟨hc, hh⟩ := hcond
        cases rest with
        | nil => simp at hh
        | cons r rs =>
          simp at hh
          subst hh hc
          simp [hnl]
      next hcond =>
        simp only [Option.map_eq_some'] at h
        obtain ⟨g', hg', rfl⟩ := h
        have hne : rest ≠ [] := by
          intro hr
          rw [hr] at hg'
          simp [findBody] at hg'
        have hcond' : ¬(c = '\x7d' ∧ (rest ++ Y).head? = some '\n') := by
          intro ⟨hc, hh⟩
          apply hcond
          refine ⟨hc, ?_⟩
          cases rest with
          | nil => exact absurd rfl hne
          | cons r rs => simpa using hh
        simp only [if_neg hnl, if_neg hcond', ih hg', Option.map_some']

theorem findBody_none_append {z Y : List Char} (h : findBody z = none)
    (hnl : '\n' ∈ z) : findBody (z ++ Y) = none := by
  induction z with
  | nil => simp at hnl
  | cons c rest ih =>
    rw [findBody] at h
    rw [List.cons_append, findBody]
    split at h
    next hc => simp [hc]
    next hc =>
      split at h
      next hcond => simp at h
      next hcond =>
        simp only [Option.map_eq_none'] at h
        have hmem : '\n' ∈ rest := by
          cases hnl with
          | head => exact absurd rfl hc
          | tail _ hm => exact hm
        have hne : rest ≠ [] := by
          intro hr
          rw [hr] at hmem
          simp at hmem
        have hcond' : ¬(c = '\x7d' ∧ (rest ++ Y).head? = some '\n') := by
          intro ⟨hcc, hh⟩
          apply hcond
          refine ⟨hcc, ?_⟩
          cases rest with
          | nil => exact absurd rfl hne
          | cons r rs => simpa using hh
        simp only [if_neg hc, if_neg hcond', ih h hmem, Option.map_none']

theorem findBody_decomp {z g : List Char} (h : findBody z = some g) :
    ∃ w, z = g ++ '\n' :: w := by
  induction z generalizing g with
  | nil => simp [findBody] at h
  | cons c rest ih =>
    rw [findBody] at h
    split at h
    next => exact absurd h (by simp)
    next =>
      split at h
      next hcond =>
        simp at h
        subst h
        obtain ⟨hc, hh⟩ := hcond
        cases rest with
        | nil => simp at hh
        | cons r rs =>
          simp at hh
          subst hh hc
          exact ⟨rs, rfl⟩
      next =>
        simp only [Option.map_eq_some'] at h
        obtain ⟨g', hg', rfl⟩ := h
        obtain ⟨w, hw⟩ := ih hg'
        exact ⟨w, by rw [hw]; rfl⟩

theorem findFrame_mem_newline {b g : List Char} (h : findFrame b = some g) :
    '\n' ∈ b.drop 6 := by
  induction b generalizing g with
  | nil => simp [findFrame] at h
  | cons c rest ih =>
    rw [findFrame] at h
    split at h
    next hpre =>
      split at h
      next g' hbody =>
        obtain ⟨w, hw⟩ := findBody_decomp hbody
        rw [hw]
        simp
      next hbody =>
        have hmem := ih h
        have : (c :: rest).drop 6 = rest.drop 5 := rfl
        rw [this]
        have h2 : rest.drop 6 = (rest.drop 5).drop 1 := by
          rw [List.drop_drop]
        rw [h2] at hmem
        exact List.drop_subset 1 (rest.drop 5) hmem
    next hpre =>
      have hmem := ih h
      have : (c :: rest).drop 6 = rest.drop 5 := rfl
      rw [this]
      have h2 : rest.drop 6 = (rest.drop 5).drop 1 := by
        rw [List.drop_drop]
      rw [h2] at hmem
      exact List.drop_subset 1 (rest.drop 5) hmem

theorem findFrame_append {X Y g : List Char} (h : findFrame X = some g) :
    findFrame (X ++ Y) = some g := by
  induction X generalizing g with
  | nil => simp [findFrame] at h
  | cons c rest ih =>
    rw [findFrame] at h
    rw [List.cons_append, findFrame]
    split at h
    next hpre =>
      have hlen : 6 ≤ (c :: rest).length := by
        have : ((c :: rest).take 6).length = dataMark.length := by rw [hpre]
        simp [dataMark, chars] at this
        simp
        omega
      have hpre2 : (c :: (rest ++ Y)).take 6 = dataMark := by
        have := @List.take_append_of_le_length _ _ Y 6 hlen
        rw [← List.cons_append, this, hpre]
      rw [if_pos hpre2]
      have hdrop : (c :: (rest ++ Y)).drop 6 = (c :: rest).drop 6 ++ Y := by
        have := @List.drop_append_of_le_length _ _ Y 6 hlen
        rw [← List.cons_append, this]
      split at h
      next g' hbody =>
        cases h
        rw [hdrop, findBody_append hbody]
      next hbody =>
        have hmem : '\n' ∈ (c :: rest).drop 6 := by
          have hm := findFrame_mem_newline h
          have he : (c :: rest).drop 6 = rest.drop 5 := rfl
          rw [he]
          have h2 : rest.drop 6 = (rest.drop 5).drop 1 := by
            rw [List.drop_drop]
          rw [h2] at hm
          exact List.drop_subset 1 (rest.drop 5) hm
        rw [hdrop, findBody_none_append hbody hmem]
        exact ih h
    next hpre =>
      have hlen : 6 ≤ (c :: rest).length := by
        have := findFrame_length h
        simp
        omega
      have hpre2 : ¬((c :: (rest ++ Y)).take 6 = dataMark) := by
        have heq := @List.take_append_of_le_length _ _ Y 6 hlen
        rw [← List.cons_append, heq]
        exact hpre
      rw [if_neg hpre2]
      exact ih h

theorem drain_none {b : List Char} (q : Query) (t : List Char)
    (h : findFrame b = none) : drain q b t = (b, t, []) := by
  rw [drain]
  cases hl : b.length with
  | zero => rw [drainGo]
  | succ n => rw [drainGo, h]

theorem drain_some {b g : List Char} (q : Query) (t : List Char)
    (h : findFrame b = some g) :
    drain q b t =
      ((drain q (b.drop (g.length + 7)) (handleStreamResponse q t (jsTrim g)).1).1,
       (drain q (b.drop (g.length + 7)) (handleStreamResponse q t (jsTrim g)).1).2.1,
       (handleStreamResponse q t (jsTrim g)).2 ++
         (drain q (b.drop (g.length + 7)) (handleStreamResponse q t (jsTrim g)).1).2.2) := by
  have hlen := findFrame_length h
  rw [drain]
  cases hl : b.length with
  | zero => omega
  | succ n =>
    rw [drainGo, h]
    have hdl : (b.drop (g.length + 7)).length ≤ n := by simp; omega
    have hcong : ∀ t' : List Char,
        drainGo n q (b.drop (g.length + 7)) t' =
          drainGo (b.drop (g.length + 7)).length q (b.drop (g.length + 7)) t' :=
      fun t' => drainGo_congr n _ q _ t' hdl le_rfl
    simp only [hcong]
    rfl

theorem drain_append (q : Query) : ∀ (n : Nat) (X : List Char),
    X.length ≤ n → ∀ (Y t : List Char),
    drain q (X ++ Y) t =
      ((drain q ((drain q X t).1 ++ Y) (drain q X t).2.1).1,
       (drain q ((drain q X t).1 ++ Y) (drain q X t).2.1).2.1,
       (drain q X t).2.2 ++
         (drain q ((drain q X t).1 ++ Y) (drain q X t).2.1).2.2) := by
  intro n
  induction n with
  | zero =>
    intro X hlen Y t
    have hX : X = [] := by
      cases X with
      | nil => rfl
      | cons a as => simp at hlen
    subst hX
    have h0 : drain q [] t = ([], t, []) := drain_none q t rfl
    rw [h0]
    simp only [List.nil_append]
  | succ n ih =>
    intro X hlen Y t
    cases hf : findFrame X with
    | none =>
      rw [drain_none q t hf]
      simp
    | some g =>
      have hf2 : findFrame (X ++ Y) = some g := findFrame_append hf
      have hglen := findFrame_length hf
      rw [drain_some q t hf, drain_some q t hf2]
      have hdrop : (X ++ Y).drop (g.length + 7) = X.drop (g.length + 7) ++ Y :=
        List.drop_append_of_le_length (by omega)
      rw [hdrop]
      have hlen2 : (X.drop (g.length + 7)).length ≤ n := by
        simp
        omega
      rw [ih (X.drop (g.length + 7)) hlen2 Y (handleStreamResponse q t (jsTrim g)).1]
      simp

theorem beginsWith_append {pat l : List Char} (Y : List Char)
    (h : beginsWith pat l = true) : beginsWith pat (l ++ Y) = true := by
  induction pat generalizing l with
  | nil => rfl
  | cons p ps ih =>
    cases l with
    | nil => simp [beginsWith] at h
    | cons c cs =>
      rw [beginsWith] at h
      rw [List.cons_append, beginsWith]
      simp only [Bool.and_eq_true] at h ⊢
      exact ⟨h.1, ih h.2⟩

theorem containsSub_append_left {pat a : List Char} (b : List Char)
    (h : containsSub pat a = true) : containsSub pat (a ++ b) = true := by
  induction a with
  | nil =>
    rw [containsSub] at h
    cases pat with
    | nil =>
      cases b with
      | nil => rfl
      | cons x xs => simp [containsSub, beginsWith]
    | cons p ps => simp [beginsWith] at h
  | cons c cs ih =>
    rw [containsSub] at h
    rw [List.cons_append, containsSub]
    simp only [Bool.or_eq_true] at h ⊢
    cases h with
    | inl h1 =>
      left
      have := beginsWith_append b h1
      rwa [List.cons_append] at this
    | inr h2 => right; exact ih h2

theorem containsSub_append_right {pat b : List Char} (a : List Char)
    (h : containsSub pat b = true) : containsSub pat (a ++ b) = true := by
  induction a with
  | nil => simpa using h
  | cons c cs ih =>
    rw [List.cons_append, containsSub]
    simp only [Bool.or_eq_true]
    right
    exact ih

theorem containsSub_append_split {pat a b : List Char}
    (h : containsSub pat (a ++ b) = false) :
    containsSub pat a = false ∧ containsSub pat b = false := by
  constructor
  · cases hc : containsSub pat a with
    | false => rfl
    | true => rw [containsSub_append_left b hc] at h; exact h
  · cases hc : containsSub pat b with
    | false => rfl
    | true => rw [containsSub_append_right a hc] at h; exact h

theorem feedChunk_merge (q : Query) (st : StreamState) (a b : List Char)
    (h : containsSub invalidTokenMark (a ++ b) = false) :
    feedChunk q st (a ++ b) =
      ((feedChunk q (feedChunk q st a).1 b).1,
       (feedChunk q st a).2 ++ (feedChunk q (feedChunk q st a).1 b).2) := by
  obtain ⟨ha, hb⟩ := containsSub_append_split h
  simp only [feedChunk, h, ha, hb, Bool.false_eq_true, if_false]
  have hassoc : st.buffer ++ (a ++ b) = (st.buffer ++ a) ++ b := by
    rw [List.append_assoc]
  rw [hassoc]
  rw [drain_append q (st.buffer ++ a).length (st.buffer ++ a) le_rfl b st.targetText]

theorem feedAll_join (q : Query) : ∀ (cs : List (List Char))
    (st : StreamState) (c : List Char),
    containsSub invalidTokenMark (c ++ cs.flatten) = false →
    feedAll q st (c :: cs) = feedChunk q st (c ++ cs.flatten) := by
  intro cs
  induction cs with
  | nil =>
    intro st c h
    rw [feedAll, feedAll]
    simp
  | cons d cs ih =>
    intro st c h
    have h2 : (d :: cs).flatten = d ++ cs.flatten := by simp
    rw [h2] at h ⊢
    have hsuffix : containsSub invalidTokenMark (d ++ cs.flatten) = false :=
      (containsSub_append_split h).2
    rw [feedAll, ih (feedChunk q st c).1 d hsuffix,
      feedChunk_merge q st c (d ++ cs.flatten) h]

theorem findBody_payload {p : List Char} (X : List Char)
    (hnb : ∀ c ∈ p, regexDotBlocks c = false) (hbr : ∃ p', p = p' ++ ['\x7d']) :
    findBody (p ++ '\n' :: X) = some p := by
  obtain ⟨p', rfl⟩ := hbr
  induction p' with
  | nil =>
    rw [List.nil_append, List.cons_append, List.nil_append, findBody]
    simp [regexDotBlocks]
  | cons c cs ih =>
    have hnb2 : ∀ d ∈ cs ++ ['\x7d'], regexDotBlocks d = false := by
      intro d hd
      exact hnb d (List.mem_cons_of_mem c hd)
    have hcb : regexDotBlocks c = false := hnb c (List.mem_cons_self _ _)
    rw [List.cons_append, List.cons_append, findBody]
    rw [if_neg (by simp [hcb])]
    have hcond : ¬(c = '\x7d' ∧ ((cs ++ ['\x7d']) ++ '\n' :: X).head? = some '\n') := by
      intro ⟨_, hh⟩
      cases cs with
      | nil => simp at hh
      | cons d ds =>
        simp at hh
        have hb := hnb2 d (by simp)
        rw [hh] at hb
        exact absurd hb (by decide)
    rw [if_neg hcond, ih hnb2]
    rfl

theorem findFrame_frame {p : List Char} (X : List Char) (hw : WfPayload p) :
    findFrame (frameOf p ++ X) = some p := by
  obtain ⟨hnb, hbr⟩ := hw
  have hshape : frameOf p ++ X = 'd' :: (chars "ata: " ++ (p ++ '\n' :: X)) := by
    rw [frameOf]
    simp [dataMark, chars]
  rw [hshape, findFrame]
  have htake : ('d' :: (chars "ata: " ++ (p ++ '\n' :: X))).take 6 = dataMark := by
    have : 'd' :: (chars "ata: " ++ (p ++ '\n' :: X)) =
        dataMark ++ (p ++ '\n' :: X) := by simp [dataMark, chars]
    rw [this]
    have h6 : dataMark.length = 6 := rfl
    rw [← h6, List.take_left]
  rw [if_pos htake]
  have hdrop : ('d' :: (chars "ata: " ++ (p ++ '\n' :: X))).drop 6 = p ++ '\n' :: X := by
    have : 'd' :: (chars "ata: " ++ (p ++ '\n' :: X)) =
        dataMark ++ (p ++ '\n' :: X) := by simp [dataMark, chars]
    rw [this]
    have h6 : dataMark.length = 6 := rfl
    rw [← h6, List.drop_left]
  rw [hdrop, findBody_payload X hnb hbr]

theorem frameOf_length (p : List Char) : (frameOf p).length = p.length + 7 := by
  rw [frameOf]
  simp [dataMark, chars]

theorem wireOf_cons (p : List Char) (ps : List (List Char)) :
    wireOf (p :: ps) = frameOf p ++ wireOf ps := by
  rw [wireOf, wireOf]
  simp

theorem findFrame_done : findFrame (frameOf (chars "[DONE]")) = none := by
  decide

theorem drain_wire (q : Query) : ∀ (ps : List (List Char)) (t : List Char),
    (∀ p ∈ ps, WfPayload p) →
    drain q (wireOf ps) t =
      (frameOf (chars "[DONE]"), (canonicalRun q t ps).1, (canonicalRun q t ps).2) := by
  intro ps
  induction ps with
  | nil =>
    intro t _
    have h0 : wireOf [] = frameOf (chars "[DONE]") := by
      rw [wireOf]
      simp
    rw [h0, drain_none q t findFrame_done, canonicalRun]
  | cons p ps ih =>
    intro t hwf
    have hwp : WfPayload p := hwf p (List.mem_cons_self _ _)
    have hwps : ∀ x ∈ ps, WfPayload x := fun x hx => hwf x (List.mem_cons_of_mem p hx)
    rw [wireOf_cons]
    have hff : findFrame (frameOf p ++ wireOf ps) = some p := findFrame_frame _ hwp
    rw [drain_some q t hff]
    have hdrop : (frameOf p ++ wireOf ps).drop (p.length + 7) = wireOf ps := by
      rw [← frameOf_length p, List.drop_left]
    rw [hdrop, ih _ hwps, canonicalRun]

theorem feedAll_wire (q : Query) (ps cs : List (List Char))
    (hwf : ∀ p ∈ ps, WfPayload p)
    (hit : containsSub invalidTokenMark (wireOf ps) = false)
    (hcs : cs.flatten = wireOf ps) :
    feedAll q initStream cs =
      (⟨frameOf (chars "[DONE]"), (canonicalRun q [] ps).1⟩,
       (canonicalRun q [] ps).2) := by
  cases cs with
  | nil =>
    exfalso
    have hlen := congrArg List.length hcs
    rw [wireOf] at hlen
    simp [frameOf, dataMark, chars] at hlen
  | cons c rest =>
    have hflat : c ++ rest.flatten = wireOf ps := by simpa using hcs
    rw [feedAll_join q rest initStream c (by rw [hflat]; exact hit), hflat]
    rw [feedChunk, if_neg (by rw [hit]; simp)]
    have hbuf : initStream.buffer ++ wireOf ps = wireOf ps := rfl
    rw [hbuf]
    have hdw := drain_wire q ps initStream.targetText hwf
    simp only [hdw]
    rfl

/-- C1 (amended): for a well-formed stream byte sequence that does not
contain the substring "Invalid token", feeding any two chunk splittings of
the sequence to the streamHandler buffering loop plus handleStreamResponse
produces identical final states and identical ordered event traces — equal,
moreover, to the canonical per-payload run, so no delta is lost, duplicated
or reordered.  (The unamended claim, without the "Invalid token" proviso, is
refuted by the counterexample below: the auth-failure substring check is
applied per chunk and drops the matching chunk.) -/
theorem c1_split_invariance (q : Query) (ps cs₁ cs₂ : List (List Char))
    (hwf : ∀ p ∈ ps, WfPayload p)
    (hit : containsSub invalidTokenMark (wireOf ps) = false)
    (h₁ : cs₁.flatten = wireOf ps) (h₂ : cs₂.flatten = wireOf ps) :
    feedAll q initStream cs₁ = feedAll q initStream cs₂ ∧
    (feedAll q initStream cs₁).2 = (canonicalRun q [] ps).2 ∧
    (feedAll q initStream cs₁).1.targetText = (canonicalRun q [] ps).1 := by
  rw [feedAll_wire q ps cs₁ hwf hit h₁, feedAll_wire q ps cs₂ hwf hit h₂]
  exact ⟨rfl, rfl, rfl⟩

/-- Witness for C1 (amended) at a concrete instance: the single-chunk
delivery of the "Hi" wire and its frame-by-frame delivery agree. -/
theorem c1_split_invariance_witness :
    feedAll qFix initStream [wireOf [payloadHi]] =
      feedAll qFix initStream [frameOf payloadHi, frameDone] ∧
    (feedAll qFix initStream [wireOf [payloadHi]]).2 =
      (canonicalRun qFix [] [payloadHi]).2 ∧
    (feedAll qFix initStream [wireOf [payloadHi]]).1.targetText =
      (canonicalRun qFix [] [payloadHi]).1 :=
  c1_split_invariance qFix [payloadHi] [wireOf [payloadHi]]
    [frameOf payloadHi, frameDone]
    (by
      intro p hp
      simp at hp
      subst hp
      exact ⟨by decide,
        chars "\x7b\"choices\":[\x7b\"delta\":\x7b\"content\":\"Hi\"\x7d\x7d]", rfl⟩)
    (by decide) (by simp) (by decide)

/-- C1 (counterexample to the unamended claim): the wire of a single
well-formed frame whose delta text is "Invalid token", delivered as one
chunk versus delivered split between "Invalid" and " token", produces
different event traces — the one-chunk delivery is diverted to the secretKey
error path and its delta is lost, the split delivery delivers the delta. -/
theorem c1_counterexample :
    WfPayload payloadInv ∧
    [wireOf [payloadInv]].flatten = wireOf [payloadInv] ∧
    [chunkInvA, chunkInvB].flatten = wireOf [payloadInv] ∧
    (feedAll qFix initStream [wireOf [payloadInv]]).2 ≠
      (feedAll qFix initStream [chunkInvA, chunkInvB]).2 :=
  ⟨⟨by decide,
     chars "\x7b\"choices\":[\x7b\"delta\":\x7b\"content\":\"Invalid token\"\x7d\x7d]",
     rfl⟩,
   by simp, by decide, by decide⟩

/-- C5: a non-[DONE] frame payload decoding to a non-empty string delta at
choices[0].delta.content makes handleStreamResponse append the delta and
deliver the new accumulated text through exactly one partial-result
callback; a frame without a (truthy) delta, or the [DONE] payload, leaves
the accumulated text unchanged and emits nothing; and the concrete
three-frame stream "Hi" / " there" / [DONE] yields partial callbacks "Hi"
then "Hi there" and the final result "Hi there". -/
theorem c5_stream_deltas :
    (∀ (q : Query) (t p : List Char) (j : Js) (s : List Char),
      p ≠ chars "[DONE]" → jsonParse p = some j → deltaOf j = .ok (.str s) →
      s ≠ [] →
      handleStreamResponse q t p =
        (t ++ s, [Event.partialResult q.detectFrom q.detectTo [t ++ s]])) ∧
    (∀ (q : Query) (t p : List Char) (j : Js) (d : Js),
      p ≠ chars "[DONE]" → jsonParse p = some j → deltaOf j = .ok d →
      d.truthy = false →
      handleStreamResponse q t p = (t, [])) ∧
    (∀ (q : Query) (t : List Char),
      handleStreamResponse q t (chars "[DONE]") = (t, [])) ∧
    feedAll qFix initStream [frameOf payloadHi, frameOf payloadThere, frameDone] =
      (⟨frameDone, chars "Hi there"⟩,
       [Event.partialResult (chars "en") (chars "en") [chars "Hi"],
        Event.partialResult (chars "en") (chars "en") [chars "Hi there"]]) ∧
    streamFinish qFix (chars "Hi there") ⟨Js.obj [], 200, none⟩ =
      [Event.completionResult (chars "en") (chars "en") [chars "Hi there"]] := by
  refine ⟨?_, ?_, ?_, by decide, by decide⟩
  · intro q t p j s hp hparse hdelta hs
    rw [handleStreamResponse, if_neg hp, hparse]
    have htr : (Js.str s).truthy = true := by
      simp [Js.truthy, hs]
    simp only [hdelta, htr, if_true]
    rfl
  · intro q t p j d hp hparse hdelta hd
    rw [handleStreamResponse, if_neg hp, hparse]
    simp only [hdelta, hd, Bool.false_eq_true, if_false]
  · intro q t
    rw [handleStreamResponse, if_pos rfl]

/-- Witness for C5 at a concrete instance: feeding the "Hi" payload to an
empty accumulator appends "Hi" and emits one partial callback. -/
theorem c5_stream_deltas_witness :
    handleStreamResponse qFix [] payloadHi =
      (chars "Hi", [Event.partialResult (chars "en") (chars "en") [chars "Hi"]]) :=
  c5_stream_deltas.1 qFix [] payloadHi jHi (chars "Hi")
    (by decide) rfl rfl (by decide)

/-- C6: on a non-streaming response whose first choice carries string
content, the normalizer delivers exactly one completion result whose
paragraphs are the newline-split of the cleaned content (trim, then one
leading/trailing quote stripped, then a trailing `" =>` stripped); stripping
removes each matching pair of quotation-like brackets wrapped around any
text; and the concrete body with content "“Bonjour”\n" normalizes to the
single paragraph "Bonjour". -/
theorem c6_normalizer_cleanup :
    (∀ (q : Query) (content : List Char) (sc : Int) (er : Option Js),
      handleGeneralResponse q
        ⟨Js.obj [(chars "choices", Js.arr
           [Js.obj [(chars "message", Js.obj [(chars "content", Js.str content)])]])],
         sc, er⟩ =
        .ok [Event.completionResult q.detectFrom q.detectTo
          (splitNl
            (if endsArrow (stripEdgeQuotes (jsTrim content)) then
               (stripEdgeQuotes (jsTrim content)).take
                 ((stripEdgeQuotes (jsTrim content)).length - 4)
             else stripEdgeQuotes (jsTrim content)))]) ∧
    (∀ mid : List Char, stripEdgeQuotes ('『' :: mid ++ ['』']) = mid) ∧
    (∀ mid : List Char, stripEdgeQuotes ('「' :: mid ++ ['」']) = mid) ∧
    (∀ mid : List Char, stripEdgeQuotes ('"' :: mid ++ ['"']) = mid) ∧
    (∀ mid : List Char, stripEdgeQuotes ('“' :: mid ++ ['”']) = mid) ∧
    handleGeneralResponse qFix
      ⟨Js.obj [(chars "choices", Js.arr
         [Js.obj [(chars "message",
            Js.obj [(chars "content", Js.str (chars "“Bonjour”\n"))])]])],
       200, none⟩ =
      .ok [Event.completionResult (chars "en") (chars "en") [chars "Bonjour"]] := by
  refine ⟨?_, ?_, ?_, ?_, ?_, by rfl⟩
  · intro q content sc er
    rfl
  all_goals
    intro mid
    simp [stripEdgeQuotes, openQuoteSet, closeQuoteSet, List.getLast?_concat]

/-- C7: a non-streaming response with an empty or absent choices array makes
the normalizer deliver exactly one api-kind error event whose remediation
detail is the serialized response, and no completion result. -/
theorem c7_no_choices_api_error :
    (∀ (q : Query) (fs : List (List Char × Js)) (sc : Int) (er : Option Js),
      lookupField fs (chars "choices") = none →
      handleGeneralResponse q ⟨Js.obj fs, sc, er⟩ =
        .ok [Event.completionError (chars "api") (chars "接口未返回结果")
          (some (serializeResp ⟨Js.obj fs, sc, er⟩))]) ∧
    (∀ (q : Query) (fs : List (List Char × Js)) (sc : Int) (er : Option Js),
      lookupField fs (chars "choices") = some (Js.arr []) →
      handleGeneralResponse q ⟨Js.obj fs, sc, er⟩ =
        .ok [Event.completionError (chars "api") (chars "接口未返回结果")
          (some (serializeResp ⟨Js.obj fs, sc, er⟩))]) := by
  constructor
  · intro q fs sc er h
    have hc : getPropChk (HttpResponse.data ⟨Js.obj fs, sc, er⟩) (chars "choices") =
        .ok Js.undefined := by
      simp [getPropChk, getPropNN, h]
    rw [handleGeneralResponse, hc]
    rfl
  · intro q fs sc er h
    have hc : getPropChk (HttpResponse.data ⟨Js.obj fs, sc, er⟩) (chars "choices") =
        .ok (Js.arr []) := by
      simp [getPropChk, getPropNN, h]
    rw [handleGeneralResponse, hc]
    rfl

/-- Witness for C7 at a concrete instance: the body with an explicit empty
choices array yields the api error. -/
theorem c7_no_choices_api_error_witness :
    handleGeneralResponse qFix ⟨Js.obj [(chars "choices", Js.arr [])], 200, none⟩ =
      .ok [Event.completionError (chars "api") (chars "接口未返回结果")
        (some (serializeResp ⟨Js.obj [(chars "choices", Js.arr [])], 200, none⟩))] :=
  c7_no_choices_api_error.2 qFix [(chars "choices", Js.arr [])] 200 none rfl

theorem exc_bind_ok {α β : Type} (x : α) (f : α → Except Unit β) :
    (Except.ok x >>= f) = f x := rfl

theorem handleGeneralResponse_null_content (q : Query)
    (msgFields : List (List Char × Js)) (restChoices : List Js) (sc : Int)
    (er : Option Js)
    (h : lookupField msgFields (chars "content") = none ∨
         lookupField msgFields (chars "content") = some Js.null) :
    handleGeneralResponse q
      ⟨Js.obj [(chars "choices",
         Js.arr (Js.obj [(chars "message", Js.obj msgFields)] :: restChoices))],
       sc, er⟩ = .error () := by
  rw [handleGeneralResponse]
  have h1 : getPropChk
      (HttpResponse.data ⟨Js.obj [(chars "choices",
         Js.arr (Js.obj [(chars "message", Js.obj msgFields)] :: restChoices))], sc, er⟩)
      (chars "choices") =
      .ok (Js.arr (Js.obj [(chars "message", Js.obj msgFields)] :: restChoices)) := rfl
  rw [h1, exc_bind_ok]
  have hcond : ¬((Js.arr (Js.obj [(chars "message", Js.obj msgFields)] :: restChoices)).truthy = false ∨
      jsLengthNN (Js.arr (Js.obj [(chars "message", Js.obj msgFields)] :: restChoices)) = some 0) := by
    rintro (hx | hx)
    · simp [Js.truthy] at hx
    · simp [jsLengthNN] at hx
      have hge : (0:ℚ) ≤ (restChoices.length : ℚ) := Nat.cast_nonneg _
      linarith
  rw [if_neg hcond]
  have h2 : getPropChk
      (getIndexNN (Js.arr (Js.obj [(chars "message", Js.obj msgFields)] :: restChoices)) 0)
      (chars "message") = .ok (Js.obj msgFields) := rfl
  rw [h2, exc_bind_ok]
  cases h with
  | inl hcase =>
    have h3 : getPropChk (Js.obj msgFields) (chars "content") = .ok Js.undefined := by
      simp [getPropChk, getPropNN, hcase]
    rw [h3, exc_bind_ok]
    rfl
  | inr hcase =>
    have h3 : getPropChk (Js.obj msgFields) (chars "content") = .ok Js.null := by
      simp [getPropChk, getPropNN, hcase]
    rw [h3, exc_bind_ok]
    rfl

/-- C10 (implicit): a non-streaming response with a non-empty choices array
whose first choice's message content is null or absent makes the normalizer
deliver neither a result nor an api error: the non-null-asserted
`targetText!.split` evaluation throws (modelled as `Except.error`), and the
translate call's surrounding catch reports the exception through the generic
error handler instead. -/
theorem c10_null_content_throws :
    (∀ (q : Query) (msgFields : List (List Char × Js)) (restChoices : List Js)
       (sc : Int) (er : Option Js),
      (lookupField msgFields (chars "content") = none ∨
       lookupField msgFields (chars "content") = some Js.null) →
      handleGeneralResponse q
        ⟨Js.obj [(chars "choices",
           Js.arr (Js.obj [(chars "message", Js.obj msgFields)] :: restChoices))],
         sc, er⟩ = .error ()) ∧
    (∀ (supported : List Char → Bool) (o : Options) (q : Query)
       (msgFields : List (List Char × Js)) (restChoices : List Js) (sc : Int),
      (lookupField msgFields (chars "content") = none ∨
       lookupField msgFields (chars "content") = some Js.null) →
      translateNoStream supported o q
        ⟨Js.obj [(chars "choices",
           Js.arr (Js.obj [(chars "message", Js.obj msgFields)] :: restChoices))],
         sc, none⟩ =
        (translateEntry supported o q).1 ++
          [Event.httpRequest (chars "POST") (translateEntry supported o q).2] ++
          genericCatchEvents) := by
  constructor
  · intro q msgFields restChoices sc er h
    exact handleGeneralResponse_null_content q msgFields restChoices sc er h
  · intro supported o q msgFields restChoices sc h
    have key := handleGeneralResponse_null_content q msgFields restChoices sc none h
    simp only [translateNoStream, key]

/-- Witness for C10 at a concrete instance: a response whose only choice has
a null message content makes the valid-options translate call emit the
transport invocation followed by the generic catch error, and nothing else. -/
theorem c10_null_content_throws_witness :
    translateNoStream supportedFix optsFix qFix
      ⟨Js.obj [(chars "choices",
         Js.arr [Js.obj [(chars "message",
           Js.obj [(chars "content", Js.null)])]])], 200, none⟩ =
      [Event.httpRequest (chars "POST")
         (chars "https://api.openai.com/v1/chat/completions"),
       Event.completionError (chars "unknown") (chars "未知错误") none] :=
  c10_null_content_throws.2 supportedFix optsFix qFix
    [(chars "content", Js.null)] [] 200 (Or.inr rfl)

/-- C8 (counterexample to the claim as stated): a validate response with no
error field and an empty choices array makes the Azure validate handler
return without invoking the callback at all — the empty event trace — so the
validate callback is NOT invoked for every response. -/
theorem c8_counterexample :
    azureValidateHandler ⟨Js.obj [(chars "choices", Js.arr [])], 200, none⟩ =
      .ok [] := rfl

/-- C8 (amended): a truthy error body routes through the Error Classifier
(param for a 4xx status, api otherwise) and invokes the callback with that
error; at least one choice (Azure) or a non-empty model list (OpenAI)
invokes it with success; but a response with no error and an empty choices
array, or an empty or absent model list, invokes no callback at all. -/
theorem c8_validate_outcomes :
    (∀ (fs : List (List Char × Js)) (sc : Int) (er : Option Js) (e : Js),
      lookupField fs (chars "error") = some e → e.truthy = true →
      azureValidateHandler ⟨Js.obj fs, sc, er⟩ =
        .ok [Event.validateError (validateKind sc) (jsonStringify e)]) ∧
    (∀ (fs : List (List Char × Js)) (sc : Int) (er : Option Js) (xs : List Js),
      lookupField fs (chars "error") = none →
      lookupField fs (chars "choices") = some (Js.arr xs) → xs ≠ [] →
      azureValidateHandler ⟨Js.obj fs, sc, er⟩ = .ok [Event.validateOk]) ∧
    (∀ (fs : List (List Char × Js)) (sc : Int) (er : Option Js),
      lookupField fs (chars "error") = none →
      lookupField fs (chars "choices") = some (Js.arr []) →
      azureValidateHandler ⟨Js.obj fs, sc, er⟩ = .ok []) ∧
    (∀ (fs : List (List Char × Js)) (sc : Int) (er : Option Js) (e : Js),
      lookupField fs (chars "error") = some e → e.truthy = true →
      openaiValidateHandler ⟨Js.obj fs, sc, er⟩ =
        .ok [Event.validateError (validateKind sc) (jsonStringify e)]) ∧
    (∀ (fs : List (List Char × Js)) (sc : Int) (er : Option Js) (xs : List Js),
      lookupField fs (chars "error") = none →
      lookupField fs (chars "data") = some (Js.arr xs) → xs ≠ [] →
      openaiValidateHandler ⟨Js.obj fs, sc, er⟩ = .ok [Event.validateOk]) ∧
    (∀ (fs : List (List Char × Js)) (sc : Int) (er : Option Js),
      lookupField fs (chars "error") = none →
      (lookupField fs (chars "data") = none ∨
       lookupField fs (chars "data") = some (Js.arr [])) →
      openaiValidateHandler ⟨Js.obj fs, sc, er⟩ = .ok []) := by
  refine ⟨?_, ?_, ?_, ?_, ?_, ?_⟩
  · intro fs sc er e he htr
    rw [azureValidateHandler]
    have h1 : getPropChk (HttpResponse.data ⟨Js.obj fs, sc, er⟩) (chars "error") =
        .ok e := by simp [getPropChk, getPropNN, he]
    rw [h1, exc_bind_ok, if_pos htr]
    rfl
  · intro fs sc er xs he hc hx
    rw [azureValidateHandler]
    have h1 : getPropChk (HttpResponse.data ⟨Js.obj fs, sc, er⟩) (chars "error") =
        .ok Js.undefined := by simp [getPropChk, getPropNN, he]
    rw [h1, exc_bind_ok, if_neg (by simp [Js.truthy])]
    have h2 : getPropChk (HttpResponse.data ⟨Js.obj fs, sc, er⟩) (chars "choices") =
        .ok (Js.arr xs) := by simp [getPropChk, getPropNN, hc]
    rw [h2, exc_bind_ok]
    have h3 : jsLengthChk (Js.arr xs) = .ok (some (xs.length : ℚ)) := rfl
    rw [h3, exc_bind_ok]
    have h4 : (0:ℚ) < (xs.length : ℚ) := by
      have := List.length_pos.mpr hx
      exact_mod_cast this
    simp only [if_pos h4]
    rfl
  · intro fs sc er he hc
    rw [azureValidateHandler]
    have h1 : getPropChk (HttpResponse.data ⟨Js.obj fs, sc, er⟩) (chars "error") =
        .ok Js.undefined := by simp [getPropChk, getPropNN, he]
    rw [h1, exc_bind_ok, if_neg (by simp [Js.truthy])]
    have h2 : getPropChk (HttpResponse.data ⟨Js.obj fs, sc, er⟩) (chars "choices") =
        .ok (Js.arr []) := by simp [getPropChk, getPropNN, hc]
    rw [h2, exc_bind_ok]
    rfl
  · intro fs sc er e he htr
    rw [openaiValidateHandler]
    have h1 : getPropChk (HttpResponse.data ⟨Js.obj fs, sc, er⟩) (chars "error") =
        .ok e := by simp [getPropChk, getPropNN, he]
    rw [h1, exc_bind_ok, if_pos htr]
    rfl
  · intro fs sc er xs he hd hx
    rw [openaiValidateHandler]
    have h1 : getPropChk (HttpResponse.data ⟨Js.obj fs, sc, er⟩) (chars "error") =
        .ok Js.undefined := by simp [getPropChk, getPropNN, he]
    rw [h1, exc_bind_ok, if_neg (by simp [Js.truthy])]
    have h2 : getPropChk (HttpResponse.data ⟨Js.obj fs, sc, er⟩) (chars "data") =
        .ok (Js.arr xs) := by simp [getPropChk, getPropNN, hd]
    rw [h2, exc_bind_ok]
    have h4 : (0:ℚ) < (xs.length : ℚ) := by
      have := List.length_pos.mpr hx
      exact_mod_cast this
    simp only [jsLengthNN, if_pos h4]
    rfl
  · intro fs sc er he hd
    rw [openaiValidateHandler]
    have h1 : getPropChk (HttpResponse.data ⟨Js.obj fs, sc, er⟩) (chars "error") =
        .ok Js.undefined := by simp [getPropChk, getPropNN, he]
    rw [h1, exc_bind_ok, if_neg (by simp [Js.truthy])]
    cases hd with
    | inl hcase =>
      have h2 : getPropChk (HttpResponse.data ⟨Js.obj fs, sc, er⟩) (chars "data") =
          .ok Js.undefined := by simp [getPropChk, getPropNN, hcase]
      rw [h2, exc_bind_ok]
      rfl
    | inr hcase =>
      have h2 : getPropChk (HttpResponse.data ⟨Js.obj fs, sc, er⟩) (chars "data") =
          .ok (Js.arr []) := by simp [getPropChk, getPropNN, hcase]
      rw [h2, exc_bind_ok]
      rfl

/-- Witness for C8 (amended) at a concrete instance: an Azure validate
response with one choice invokes the callback with success. -/
theorem c8_validate_outcomes_witness :
    azureValidateHandler ⟨Js.obj [(chars "choices", Js.arr [Js.obj []])], 200, none⟩ =
      .ok [Event.validateOk] :=
  c8_validate_outcomes.2.1 [(chars "choices", Js.arr [Js.obj []])] 200 none
    [Js.obj []] rfl rfl (List.cons_ne_nil _ _)

/-- C9: for every model, query and option record, the Request Builder
produces a payload with exactly the fixed sampling parameters (temperature
0.2, max_tokens 1000, top_p 1, frequency_penalty 1, presence_penalty 1), a
messages array of exactly two messages — first role "system", second role
"user" — and no legacy `prompt` field; and it is a pure deterministic
function of its inputs. -/
theorem c9_request_body_shape (o : Options) (model : List Char) (q : Query) :
    jsField (buildRequestBody o model q) (chars "model") = some (.str model) ∧
    jsField (buildRequestBody o model q) (chars "temperature") = some (.num (2 / 10)) ∧
    jsField (buildRequestBody o model q) (chars "max_tokens") = some (.num 1000) ∧
    jsField (buildRequestBody o model q) (chars "top_p") = some (.num 1) ∧
    jsField (buildRequestBody o model q) (chars "frequency_penalty") = some (.num 1) ∧
    jsField (buildRequestBody o model q) (chars "presence_penalty") = some (.num 1) ∧
    jsField (buildRequestBody o model q) (chars "prompt") = none ∧
    (∃ sys usr : List Char,
      jsField (buildRequestBody o model q) (chars "messages") = some (.arr
        [Js.obj [(chars "role", .str (chars "system")),
                 (chars "content", .str sys)],
         Js.obj [(chars "role", .str (chars "user")),
                 (chars "content", .str usr)]])) ∧
    buildRequestBody o model q = buildRequestBody o model q :=
  ⟨rfl, rfl, rfl, rfl, rfl, rfl, rfl, ⟨_, _, rfl⟩, rfl⟩

/-- C2 (code bug, at the failing input): a translate call whose target
language is not in the supported table DOES emit the unsupportedLanguage
error first, but the validation does not return: the HTTP transport is still
invoked (one httpRequest event) and the response is still processed — the
claim's "no HTTP request is issued" is violated by the missing return after
handleGeneralError (src/main.ts lines 271-278). -/
theorem c2_unsupported_language_still_requests :
    translateNoStream supportedFix optsFix qBad respOk =
      [Event.completionError (chars "unsupportedLanguage") (chars "不支持该语种")
         (some (chars "不支持该语种")),
       Event.httpRequest (chars "POST")
         (chars "https://api.openai.com/v1/chat/completions"),
       Event.completionResult (chars "en") (chars "xx") [chars "done"]] := by
  decide

/-- C3 (code bug, at the failing input): a call that fails two entry
validations (unsupported target language and empty apiKeys) invokes the
completion callback once per failed validation and then once more with the
response result — three completion invocations in one call, not exactly
one. -/
theorem c3_multiple_completions :
    completionCount (translateNoStream supportedFix optsNoKeys qBad respOk) = 3 := by
  decide

/-- C4 (code bug at the failing input, and the non-Azure half proved): an
Azure base URL with an empty deploymentName emits the secretKey error but
the call still issues the HTTP POST (to the default /v1/chat/completions
path) and still processes the response, contradicting "before any network
call is attempted"; and for every non-Azure call the deploymentName value
has no effect on the emitted trace (URL included). -/
theorem c4_azure_deployment_name :
    (translateNoStream supportedFix optsAzure qFix respOk =
      [Event.completionError (chars "secretKey")
         (chars "配置错误 - 未填写 Deployment Name")
         (some (chars "请在插件配置中填写 Deployment Name")),
       Event.httpRequest (chars "POST")
         (chars "https://test.openai.azure.com/v1/chat/completions"),
       Event.completionResult (chars "en") (chars "en") [chars "done"]]) ∧
    (∀ (supported : List Char → Bool) (o : Options) (q : Query)
       (r : HttpResponse) (d d' : List Char),
      containsSub (chars "openai.azure.com")
        (ensureHttpsAndNoTrailingSlash
          (if o.apiUrl = [] then chars "https://api.openai.com" else o.apiUrl)) =
        false →
      translateNoStream supported (setDeployment o d) q r =
        translateNoStream supported (setDeployment o d') q r) := by
  constructor
  · decide
  · intro supported o q r d d' h
    have hentry : translateEntry supported (setDeployment o d) q =
        translateEntry supported (setDeployment o d') q := by
      simp only [translateEntry, setDeployment, h, Bool.false_eq_true, if_false]
    simp only [translateNoStream, hentry]

/-- Witness for C4 at a concrete instance: with the default OpenAI base URL,
two calls differing only in deploymentName produce identical traces. -/
theorem c4_azure_deployment_name_witness :
    translateNoStream supportedFix (setDeployment optsFix (chars "x")) qFix respOk =
      translateNoStream supportedFix (setDeployment optsFix (chars "y")) qFix respOk :=
  c4_azure_deployment_name.2 supportedFix optsFix qFix respOk
    (chars "x") (chars "y") (by decide)
